import Mathlib

/-!
Shallow embedding of `react-mobx-local-model` (src/ReactModel.ts and
src/observerWithModel.ts): the model base class with its lazily installed
accessor, the model factory `createModel` with its per-key computation
cache and `dispose`, the snapshot-box update effect of the wrapper
component, the wrap-time control flow of `observerWithModel`, and the
static-property hoisting `copyStaticProperties`.
-/

/-- JS runtime values as this library sees them: reference (and primitive)
identity is modelled by a numeric id, and `undef` is the value produced by
reading a missing property. -/
inductive JsVal where
  | undef : JsVal
  | ref : Nat → JsVal
  deriving DecidableEq

/-- Property keys are strings. -/
abbrev Key := String

/-- A plain JS object of props: its own enumerable properties in insertion
order. -/
abbrev Props := List (Key × JsVal)

/-- JS member access `obj[key]`: a missing key yields `undefined`. -/
def propsGet (p : Props) (k : Key) : JsVal :=
  (p.lookup k).getD JsVal.undef

/-- An equality comparator, as mobx `IEqualsComparer`. -/
abbrev Cmp := JsVal → JsVal → Bool

/-- mobx `comparer.identity`: reference equality. -/
def comparerIdentity : Cmp := fun a b => a == b

/-- mobx `comparer.shallow` on plain props objects, as used in
`comparer.shallow(props, current.get())`: same number of own enumerable
keys and, for each key of the first object, a reference-equal value in the
second. -/
def comparerShallow (a b : Props) : Bool :=
  a.length == b.length && a.all fun p => b.lookup p.1 == some p.2

/-- The errors the embedded code can throw. -/
inductive JsError where
  | dieError
  | notAFunction
  | memoError
  | forwardRefRenderError
  deriving DecidableEq

/-- The message carried by each error, copied from the source. The
`notAFunction` case is the TypeError the JS engine raises when the nulled
accessor slot is invoked. -/
def errorMessage : JsError → String
  | .dieError => "need to be reimplemented with useModel"
  | .notAFunction => "model.get is not a function"
  | .memoError => "[@writercolab/react-mobx] You are trying to use `observer` on a function component wrapped in either another `observer` or `React.memo`. The observer already applies 'React.memo' for you."
  | .forwardRefRenderError => "[@writercolab/react-mobx] `render` property of ForwardRef was not a function"

/-- One memoized computation `computed(() => getProps()[key], { equals })`
from `createModel`: its evaluation function over the current snapshot and
its equality comparator. -/
structure Comp where
  eval : Props → JsVal
  equals : Cmp

/-- The optional `annotations` configuration passed to the `ReactModel`
constructor: when present, an optional comparator per key. -/
abbrev AnnCfg := Option (Key → Option Cmp)

/-- The comparator used for a key: `model.annotations?.[key] ?? comparer.identity`. -/
def configuredCmp (ann : AnnCfg) (k : Key) : Cmp :=
  (ann.bind fun a => a k).getD comparerIdentity

/-- The computation `createModel` builds for `key` on its first read:
`computed(() => getProps()[key], { equals })` with the configured
comparator. -/
def mkComp (ann : AnnCfg) (k : Key) : Comp :=
  { eval := fun s => propsGet s k, equals := configuredCmp ann k }

/-- The state of the model's `get` slot: `die` after the `ReactModel`
constructor (`this.get = die`), `installed` after `createModel`
(`Object.assign(model, { get: ... })`), `nulled` after `dispose`
(`Object.assign(model, { get: null })`). -/
inductive GetSlot where
  | die
  | installed
  | nulled
  deriving DecidableEq

/-- A model instance together with the `Map` captured by the accessor
closure that `createModel` installs. For a directly constructed model the
cache field is inert (the slot forbids access). -/
structure ModelInst where
  ann : AnnCfg
  slot : GetSlot
  cache : List (Key × Comp)

/-- The `ReactModel` constructor: stores the annotation configuration and
sets the accessor slot to the throwing `die`. -/
def ReactModel.construct (ann : AnnCfg) : ModelInst :=
  { ann := ann, slot := GetSlot.die, cache := [] }

/-- `createModel`: `new Model()` followed by installing the real accessor
closure (with a fresh empty `Map`) via `Object.assign`. -/
def createModel (ann : AnnCfg) : ModelInst :=
  { ReactModel.construct ann with slot := GetSlot.installed }

/-- The `dispose` closure returned by `createModel`:
`Object.assign(model, { get: null }); map.clear()`. -/
def dispose (m : ModelInst) : ModelInst :=
  { m with slot := GetSlot.nulled, cache := [] }

/-- The body of the accessor closure installed by `createModel`, acting on
the captured `Map`: look the key up; on a miss build the computation with
the key's configured comparator and cache it; return the computation's
current value over the snapshot `getProps()` returns. -/
def installedGet (ann : AnnCfg) (cache : List (Key × Comp)) (snapshot : Props)
    (k : Key) : JsVal × List (Key × Comp) :=
  match cache.lookup k with
  | some ref => (ref.eval snapshot, cache)
  | none =>
      let ref := mkComp ann k
      (ref.eval snapshot, cache ++ [(k, ref)])

/-- Calling `model.get(key)` in any lifecycle state: before installation
the slot holds `die`, which throws; after `dispose` the slot holds `null`,
so the call site raises a TypeError; in between it runs the installed
closure. -/
def callGet (m : ModelInst) (snapshot : Props) (k : Key) :
    Except JsError (JsVal × ModelInst) :=
  match m.slot with
  | .die => .error .dieError
  | .nulled => .error .notAFunction
  | .installed =>
      let r := installedGet m.ann m.cache snapshot k
      .ok (r.1, { m with cache := r.2 })

/-- A sequence of accessor calls on an installed model, each with the
snapshot `getProps()` returns at that moment: the returned values and the
final cache. -/
def installedGetMany (ann : AnnCfg) (cache : List (Key × Comp)) :
    List (Key × Props) → List JsVal × List (Key × Comp)
  | [] => ([], cache)
  | r :: rs =>
      let step := installedGet ann cache r.2 r.1
      let rest := installedGetMany ann step.2 rs
      (step.1 :: rest.1, rest.2)

/-- The cache invariant maintained by `createModel`'s closure: one entry
per key, each holding exactly the computation built for its key. -/
def CacheWF (ann : AnnCfg) (c : List (Key × Comp)) : Prop :=
  (c.map Prod.fst).Nodup ∧ ∀ p ∈ c, p.2 = mkComp ann p.1

/-- The observable trace of one run of the `[props]` effect of the wrapper:
the box contents afterwards, the arguments of the `current.set` calls it
performed, and how many `runInAction` transactions it entered. -/
structure EffectTrace where
  box : Props
  sets : List Props
  actionsEntered : Nat

/-- The `[props]` effect body of `observerComponent` (with the box already
allocated): one `runInAction` that writes the new props into the box only
when `comparer.shallow(props, current.get())` fails. -/
def propsUpdateEffect (props box : Props) : EffectTrace :=
  if comparerShallow props box then
    { box := box, sets := [], actionsEntered := 1 }
  else
    { box := props, sets := [props], actionsEntered := 1 }

/-- The per-instance state of a mounted wrapper component: the allocation
counter of the host runtime and the two `useRef` cells, each holding the
identity (allocation id) and contents of what it references. -/
structure InstState where
  nextId : Nat
  propsBox : Option (Nat × Props)
  modelRef : Option (Nat × ModelInst)

/-- The state before the first render: both refs are `null`. -/
def initialInstState : InstState :=
  { nextId := 0, propsBox := none, modelRef := none }

/-- One render pass of `observerComponent` followed by its commit: allocate
the `observable.box(props)` if the ref is still empty, allocate the model
via `createModel` if its ref is still empty, then run the `[props]` effect
that reconciles the box contents. -/
def renderStep (ann : AnnCfg) (s : InstState) (props : Props) : InstState :=
  let s1 := match s.propsBox with
    | none =>
        { s with propsBox := some (s.nextId, props), nextId := s.nextId + 1 }
    | some _ => s
  let s2 := match s1.modelRef with
    | none =>
        { s1 with modelRef := some (s1.nextId, createModel ann),
                  nextId := s1.nextId + 1 }
    | some _ => s1
  match s2.propsBox with
  | some b =>
      { s2 with propsBox := some (b.1, (propsUpdateEffect props b.2).box) }
  | none => s2

/-- The `render` own-property of a forwardRef exotic object: either a
callable function or some non-callable value (including `undefined`). -/
inductive RenderProp where
  | func : Nat → RenderProp
  | notFunc : Nat → RenderProp
  deriving DecidableEq

/-- The render target handed to `observerWithModel`, discriminated the way
the source discriminates it by the `$$typeof` tag: a plain function
component, a `React.forwardRef` exotic object carrying a `render`
property, or a `React.memo` exotic object. -/
inductive BaseComponent where
  | plainFn : Nat → BaseComponent
  | forwardRefExotic : RenderProp → BaseComponent
  | memoExotic : Nat → BaseComponent
  deriving DecidableEq

/-- The component structures `observerWithModel` can build: the inner
`observerComponent` closure around the (possibly unwrapped) render
function, and the `React.forwardRef` and `React.memo` layers applied to
it. -/
inductive OutComponent where
  | observerClosure : Nat → OutComponent
  | forwardRefOf : OutComponent → OutComponent
  | memoOf : OutComponent → OutComponent
  deriving DecidableEq

/-- Wrap-time control flow of `observerWithModel`: reject a memo-wrapped
target; unwrap a forwardRef target's `render` (rejecting a non-function);
build `observerComponent`, apply `forwardRef` when the target was
forwardRef-wrapped, and apply `React.memo` last. -/
def observerWithModel (base : BaseComponent) : Except JsError OutComponent :=
  match base with
  | .memoExotic _ => .error .memoError
  | .forwardRefExotic rp =>
      match rp with
      | .func n => .ok (.memoOf (.forwardRefOf (.observerClosure n)))
      | .notFunc _ => .error .forwardRefRenderError
  | .plainFn n => .ok (.memoOf (.observerClosure n))

/-- Modelled from the host-runtime rule quoted in the source comment:
`forwardRef` requires a render function and rejects a `memo` component as
its argument ("Instead of forwardRef(memo(...)), use memo(forwardRef(...))"). -/
def forwardRefArgAccepted : OutComponent → Bool
  | .memoOf _ => false
  | _ => true

/-- A composed component the host runtime accepts: every `forwardRef`
layer in it has an acceptable argument. -/
def hostAccepts : OutComponent → Bool
  | .observerClosure _ => true
  | .forwardRefOf c => forwardRefArgAccepted c && hostAccepts c
  | .memoOf c => hostAccepts c

/-- The own enumerable static fields of a component object. -/
abbrev Statics := List (Key × JsVal)

/-- The reserved field names `copyStaticProperties` never copies. -/
def hoistBlackList : List Key :=
  ["$$typeof", "render", "compare", "type", "displayName"]

/-- `Object.defineProperty(target, key, descriptor)`: replace the value of
an existing own property in place, or add a new own property at the end. -/
def setProp : Statics → Key → JsVal → Statics
  | [], k, v => [(k, v)]
  | p :: rest, k, v =>
      if p.1 == k then (k, v) :: rest else p :: setProp rest k v

/-- `copyStaticProperties(base, target)`: for each own key of `base` not in
the blacklist, define the property on `target` with `base`'s value. -/
def copyStaticProperties (base target : Statics) : Statics :=
  base.foldl
    (fun tgt p => if p.1 ∈ hoistBlackList then tgt else setProp tgt p.1 p.2)
    target

/-- `List.lookup` finds the head entry's value when the keys agree. -/
theorem lookup_head {β : Type} (k : Key) (v : β) (l : List (Key × β)) :
    ((k, v) :: l).lookup k = some v := by
  simp [List.lookup]

/-- `List.lookup` skips an entry whose key differs. -/
theorem lookup_tail {β : Type} {k k1 : Key} (v : β) (l : List (Key × β))
    (h : k ≠ k1) : ((k1, v) :: l).lookup k = l.lookup k := by
  have hb : (k == k1) = false := beq_eq_false_iff_ne.mpr h
  simp [List.lookup, hb]

/-- A successful lookup is a membership. -/
theorem lookup_some_mem {β : Type} {k : Key} {v : β} {l : List (Key × β)}
    (h : l.lookup k = some v) : (k, v) ∈ l := by
  induction l with
  | nil => simp [List.lookup] at h
  | cons p rest ih =>
      obtain ⟨k1, v1⟩ := p
      by_cases hk : k = k1
      · subst hk
        rw [lookup_head] at h
        obtain rfl : v1 = v := by injection h
        exact List.mem_cons_self _ _
      · rw [lookup_tail _ _ hk] at h
        exact List.mem_cons_of_mem _ (ih h)

/-- A failed lookup means the key is absent. -/
theorem lookup_none_not_mem {β : Type} {k : Key} {l : List (Key × β)}
    (h : l.lookup k = none) : k ∉ l.map Prod.fst := by
  induction l with
  | nil => simp
  | cons p rest ih =>
      obtain ⟨k1, v1⟩ := p
      by_cases hk : k = k1
      · subst hk
        rw [lookup_head] at h
        cases h
      · rw [lookup_tail _ _ hk] at h
        simp [hk, ih h]

/-- An absent key makes the lookup fail. -/
theorem lookup_not_mem_none {β : Type} {k : Key} {l : List (Key × β)}
    (h : k ∉ l.map Prod.fst) : l.lookup k = none := by
  induction l with
  | nil => simp [List.lookup]
  | cons p rest ih =>
      obtain ⟨k1, v1⟩ := p
      simp only [List.map_cons, List.mem_cons, not_or] at h
      rw [lookup_tail _ _ h.1]
      exact ih h.2

/-- C2: invoking the lazy-read accessor on a model constructed directly,
before the factory installs the real accessor, throws the explicit
"need to be reimplemented with useModel" error, for every key, snapshot,
and annotation configuration. -/
theorem c2_get_before_install_throws (ann : AnnCfg) (s : Props) (k : Key) :
    callGet (ReactModel.construct ann) s k = Except.error JsError.dieError
    ∧ errorMessage JsError.dieError = "need to be reimplemented with useModel" :=
  ⟨rfl, rfl⟩

/-- C3 counterexample: at a concrete disposed model, the accessor call
raises the TypeError of invoking the nulled slot, which differs from the
pre-installation "need to be reimplemented with useModel" error, so the
post-disposal failure is not the same error condition as
pre-installation. -/
theorem c3_counterexample_different_error :
    callGet (dispose (createModel none)) [] "value" =
      Except.error JsError.notAFunction
    ∧ callGet (ReactModel.construct none) [] "value" =
      Except.error JsError.dieError
    ∧ callGet (dispose (createModel none)) [] "value" ≠
      callGet (ReactModel.construct none) [] "value" := by
  refine ⟨rfl, rfl, fun h => ?_⟩
  simp [callGet, dispose, createModel, ReactModel.construct] at h

/-- C3 amended: after `dispose` every accessor call fails loudly — the
nulled slot raises a TypeError on invocation — though not with the same
error as before installation. -/
theorem c3_amended_post_dispose_throws (m : ModelInst) (s : Props) (k : Key) :
    callGet (dispose m) s k = Except.error JsError.notAFunction := rfl

/-- C4: on a subsequent render the snapshot box is written iff the new
props are not shallow-equal to its current snapshot; a shallow-equal
render leaves the held value unchanged; a rewrite stores exactly the new
props with a single write, inside the one `runInAction` transaction. -/
theorem c4_snapshot_write_iff_not_shallow_equal (props box : Props) :
    ((propsUpdateEffect props box).sets ≠ [] ↔
      comparerShallow props box = false)
    ∧ (comparerShallow props box = true →
        (propsUpdateEffect props box).box = box)
    ∧ (comparerShallow props box = false →
        (propsUpdateEffect props box).box = props
        ∧ (propsUpdateEffect props box).sets = [props])
    ∧ (propsUpdateEffect props box).sets.length ≤ 1
    ∧ (propsUpdateEffect props box).actionsEntered = 1 := by
  cases h : comparerShallow props box <;> simp [propsUpdateEffect, h]

/-- C6: handing `observerWithModel` a render target already wrapped in
`React.memo` (which `observer` applies internally) fails at wrap time with
the descriptive double-wrap error, before any component is produced or
rendered. -/
theorem c6_double_wrap_throws_at_wrap_time (n : Nat) :
    observerWithModel (BaseComponent.memoExotic n) =
      Except.error JsError.memoError
    ∧ errorMessage JsError.memoError =
      "[@writercolab/react-mobx] You are trying to use `observer` on a function component wrapped in either another `observer` or `React.memo`. The observer already applies 'React.memo' for you." :=
  ⟨rfl, rfl⟩

/-- C7: a forwardRef render target is detected and its inner render
function unwrapped; the produced component is `memo(forwardRef(observer
closure))`, the composition order the host runtime accepts (the reversed
order is rejected); a forwardRef target whose `render` property is not a
function throws the descriptive error at wrap time. -/
theorem c7_forward_ref_unwrap_and_compose (n : Nat) :
    observerWithModel (BaseComponent.forwardRefExotic (RenderProp.func n)) =
      Except.ok (OutComponent.memoOf
        (OutComponent.forwardRefOf (OutComponent.observerClosure n)))
    ∧ hostAccepts (OutComponent.memoOf
        (OutComponent.forwardRefOf (OutComponent.observerClosure n))) = true
    ∧ hostAccepts (OutComponent.forwardRefOf
        (OutComponent.memoOf (OutComponent.observerClosure n))) = false
    ∧ observerWithModel
        (BaseComponent.forwardRefExotic (RenderProp.notFunc n)) =
      Except.error JsError.forwardRefRenderError
    ∧ errorMessage JsError.forwardRefRenderError =
      "[@writercolab/react-mobx] `render` property of ForwardRef was not a function" :=
  ⟨rfl, rfl, rfl, rfl, rfl⟩

/-- C8: `dispose` is idempotent — disposing an already-disposed model is a
no-op that leaves the accessor removed and the computation cache empty,
and it never throws. -/
theorem c8_dispose_idempotent (m : ModelInst) :
    dispose (dispose m) = dispose m
    ∧ (dispose m).slot = GetSlot.nulled
    ∧ (dispose m).cache = [] :=
  ⟨rfl, rfl, rfl⟩

/-- C10: after installation, reading a key absent from the snapshot does
not fail: it caches a computation for that key exactly like any present
key and returns `undefined`, the value of the missing slot. -/
theorem c10_absent_key_reads_undefined (ann : AnnCfg) (s : Props) (k : Key)
    (h : s.lookup k = none) :
    callGet (createModel ann) s k =
      Except.ok (JsVal.undef,
        { ann := ann, slot := GetSlot.installed,
          cache := [(k, mkComp ann k)] }) := by
  simp [callGet, createModel, ReactModel.construct, installedGet, mkComp,
    propsGet, h, List.lookup]

/-- C10 witness: the concrete read of the key "value" from an empty
snapshot on a freshly created model. -/
theorem c10_witness :
    callGet (createModel none) [] "value" =
      Except.ok (JsVal.undef,
        { ann := none, slot := GetSlot.installed,
          cache := [("value", mkComp none "value")] }) :=
  c10_absent_key_reads_undefined none [] "value" rfl

/-- A render step on an instance whose refs are already allocated keeps
both refs: it only reconciles the box contents. -/
theorem renderStep_preserves_refs (ann : AnnCfg) (s : InstState) (p : Props)
    (b : Nat × Props) (m : Nat × ModelInst)
    (hb : s.propsBox = some b) (hm : s.modelRef = some m) :
    (renderStep ann s p).propsBox = some (b.1, (propsUpdateEffect p b.2).box)
    ∧ (renderStep ann s p).modelRef = some m := by
  simp [renderStep, hb, hm]

/-- Folding any sequence of render steps over an instance with allocated
refs keeps the box identity and the model ref. -/
theorem foldRender_preserves_refs (ann : AnnCfg) (ps : List Props) :
    ∀ (s : InstState) (b : Nat × Props) (m : Nat × ModelInst),
      s.propsBox = some b → s.modelRef = some m →
      (ps.foldl (renderStep ann) s).propsBox.map Prod.fst = some b.1
      ∧ (ps.foldl (renderStep ann) s).modelRef = some m := by
  induction ps with
  | nil =>
      intro s b m hb hm
      simp [hb, hm]
  | cons p rest ih =>
      intro s b m hb hm
      have h := renderStep_preserves_refs ann s p b m hb hm
      simpa using ih (renderStep ann s p) (b.1, (propsUpdateEffect p b.2).box) m h.1 h.2

/-- The first render allocates the box (id 0) seeded with the props and
the model (id 1) from `createModel`. -/
theorem first_render_refs (ann : AnnCfg) (p0 : Props) :
    (renderStep ann initialInstState p0).propsBox =
      some (0, (propsUpdateEffect p0 p0).box)
    ∧ (renderStep ann initialInstState p0).modelRef =
      some (1, createModel ann) :=
  ⟨rfl, rfl⟩

/-- C5: across every sequence of property updates delivered after the
first render, the snapshot box keeps its allocation identity and the model
ref still holds the very model created on the first render — neither is
ever reallocated until unmount. -/
theorem c5_box_and_model_identity_stable (ann : AnnCfg) (p0 : Props)
    (updates : List Props) :
    (updates.foldl (renderStep ann)
        (renderStep ann initialInstState p0)).propsBox.map Prod.fst =
      (renderStep ann initialInstState p0).propsBox.map Prod.fst
    ∧ (updates.foldl (renderStep ann)
        (renderStep ann initialInstState p0)).propsBox.map Prod.fst = some 0
    ∧ (updates.foldl (renderStep ann)
        (renderStep ann initialInstState p0)).modelRef =
      (renderStep ann initialInstState p0).modelRef
    ∧ (updates.foldl (renderStep ann)
        (renderStep ann initialInstState p0)).modelRef =
      some (1, createModel ann) := by
  have h1 := first_render_refs ann p0
  have h := foldRender_preserves_refs ann updates
    (renderStep ann initialInstState p0)
    (0, (propsUpdateEffect p0 p0).box) (1, createModel ann) h1.1 h1.2
  refine ⟨?_, ?_, ?_, ?_⟩
  · rw [h.1, h1.1]
    rfl
  · exact h.1
  · rw [h.2, h1.2]
  · exact h.2

/-- `setProp` makes its key's lookup return the new value. -/
theorem lookup_setProp_self (o : Statics) (k : Key) (v : JsVal) :
    (setProp o k v).lookup k = some v := by
  induction o with
  | nil => exact lookup_head k v []
  | cons p rest ih =>
      obtain ⟨k1, v1⟩ := p
      by_cases hk : k1 = k
      · subst hk
        simp only [setProp, beq_self_eq_true, if_true]
        exact lookup_head k1 v rest
      · have hb : (k1 == k) = false := beq_eq_false_iff_ne.mpr hk
        simp only [setProp, hb, Bool.false_eq_true, if_false]
        rw [lookup_tail _ _ fun he => hk he.symm]
        exact ih

/-- `setProp` leaves the lookup of every other key unchanged. -/
theorem lookup_setProp_ne (o : Statics) {k k' : Key} (v : JsVal)
    (h : k' ≠ k) : (setProp o k v).lookup k' = o.lookup k' := by
  induction o with
  | nil =>
      simp only [setProp]
      rw [lookup_tail _ _ h]
  | cons p rest ih =>
      obtain ⟨k1, v1⟩ := p
      by_cases hk : k1 = k
      · subst hk
        simp only [setProp, beq_self_eq_true, if_true]
        rw [lookup_tail _ _ h, lookup_tail _ _ h]
      · have hb : (k1 == k) = false := beq_eq_false_iff_ne.mpr hk
        simp only [setProp, hb, Bool.false_eq_true, if_false]
        by_cases hk' : k' = k1
        · subst hk'
          rw [lookup_head, lookup_head]
        · rw [lookup_tail _ _ hk', lookup_tail _ _ hk']
          exact ih

/-- Unrolling `copyStaticProperties` one base entry at a time. -/
theorem copyStaticProperties_cons (p : Key × JsVal) (rest : List (Key × JsVal))
    (t : Statics) :
    copyStaticProperties (p :: rest) t =
      copyStaticProperties rest
        (if p.1 ∈ hoistBlackList then t else setProp t p.1 p.2) := rfl

/-- Copying from a base that lacks a key leaves that key's lookup on the
target unchanged. -/
theorem copy_lookup_of_not_key {k : Key} (base : Statics) :
    ∀ t : Statics, k ∉ base.map Prod.fst →
      (copyStaticProperties base t).lookup k = t.lookup k := by
  induction base with
  | nil => intro t _; rfl
  | cons p rest ih =>
      intro t h
      simp only [List.map_cons, List.mem_cons, not_or] at h
      rw [copyStaticProperties_cons, ih _ h.2]
      by_cases hb : p.1 ∈ hoistBlackList
      · simp [hb]
      · simp only [hb, if_false]
        exact lookup_setProp_ne t p.2 h.1

/-- The reserved keys of the target survive every copy untouched. -/
theorem copy_lookup_blacklisted {k : Key} (hk : k ∈ hoistBlackList)
    (base : Statics) :
    ∀ t : Statics,
      (copyStaticProperties base t).lookup k = t.lookup k := by
  induction base with
  | nil => intro t; rfl
  | cons p rest ih =>
      intro t
      rw [copyStaticProperties_cons]
      by_cases hb : p.1 ∈ hoistBlackList
      · simp only [hb, if_true]
        exact ih t
      · have hne : k ≠ p.1 := fun he => hb (he ▸ hk)
        simp only [hb, if_false]
        rw [ih _]
        exact lookup_setProp_ne t p.2 hne

/-- A non-reserved key of a nodup-keyed base is transferred with its
value. -/
theorem copy_lookup_transfers {k : Key} {v : JsVal} (base : Statics) :
    ∀ t : Statics, (base.map Prod.fst).Nodup →
      base.lookup k = some v → k ∉ hoistBlackList →
      (copyStaticProperties base t).lookup k = some v := by
  induction base with
  | nil =>
      intro t _ hl _
      simp [List.lookup] at hl
  | cons p rest ih =>
      intro t hnd hl hbl
      obtain ⟨k1, v1⟩ := p
      simp only [List.map_cons, List.nodup_cons] at hnd
      by_cases hk : k = k1
      · subst hk
        rw [lookup_head] at hl
        obtain rfl : v1 = v := by injection hl
        rw [copyStaticProperties_cons]
        simp only [hbl, if_false]
        rw [copy_lookup_of_not_key rest _ hnd.1]
        exact lookup_setProp_self t k _
      · rw [lookup_tail _ _ hk] at hl
        rw [copyStaticProperties_cons]
        exact ih _ hnd.2 hl hbl

/-- C9: `copyStaticProperties` transfers onto the target every static
field of the base whose name is outside the reserved set
($$typeof, render, compare, type, displayName), and it never overwrites a
reserved field of the target. -/
theorem c9_statics_copied_except_reserved (base target : Statics) (k : Key)
    (v : JsVal) (hnd : (base.map Prod.fst).Nodup) :
    (base.lookup k = some v → k ∉ hoistBlackList →
      (copyStaticProperties base target).lookup k = some v)
    ∧ (k ∈ hoistBlackList →
      (copyStaticProperties base target).lookup k = target.lookup k) :=
  ⟨fun hl hb => copy_lookup_transfers base target hnd hl hb,
   fun hk => copy_lookup_blacklisted hk base target⟩

/-- C9 witness: a concrete base with a reserved field (`displayName`) and
an ordinary field; the ordinary field is transferred and the target's
reserved field survives. -/
theorem c9_witness :
    (copyStaticProperties
        [("displayName", JsVal.ref 1), ("customField", JsVal.ref 2)]
        [("displayName", JsVal.ref 9)]).lookup "customField" =
      some (JsVal.ref 2)
    ∧ (copyStaticProperties
        [("displayName", JsVal.ref 1), ("customField", JsVal.ref 2)]
        [("displayName", JsVal.ref 9)]).lookup "displayName" =
      some (JsVal.ref 9) := by
  constructor
  · exact (c9_statics_copied_except_reserved
      [("displayName", JsVal.ref 1), ("customField", JsVal.ref 2)]
      [("displayName", JsVal.ref 9)] "customField" (JsVal.ref 2)
      (by decide)).1 (by decide) (by decide)
  · rw [(c9_statics_copied_except_reserved
      [("displayName", JsVal.ref 1), ("customField", JsVal.ref 2)]
      [("displayName", JsVal.ref 9)] "displayName" JsVal.undef
      (by decide)).2 (by decide)]
    decide

/-- One accessor call on a well-formed cache: the returned value is the
snapshot's value at the key; the cache stays well-formed; its key set
grows by at most the key read; and a key already cached leaves the cache
untouched. -/
theorem installedGet_spec (ann : AnnCfg) (c : List (Key × Comp)) (s : Props)
    (k : Key) (h : CacheWF ann c) :
    (installedGet ann c s k).1 = propsGet s k
    ∧ CacheWF ann (installedGet ann c s k).2
    ∧ (∀ k', k' ∈ (installedGet ann c s k).2.map Prod.fst ↔
        (k' = k ∨ k' ∈ c.map Prod.fst))
    ∧ (k ∈ c.map Prod.fst → (installedGet ann c s k).2 = c) := by
  cases hc : c.lookup k with
  | some ref =>
      have heq : installedGet ann c s k = (ref.eval s, c) := by
        simp [installedGet, hc]
      rw [heq]
      have hm : (k, ref) ∈ c := lookup_some_mem hc
      have href : ref = mkComp ann k := h.2 (k, ref) hm
      refine ⟨?_, h, ?_, fun _ => rfl⟩
      · rw [href]
        rfl
      · intro k'
        constructor
        · exact fun hk' => Or.inr hk'
        · rintro (rfl | hk')
          · exact List.mem_map_of_mem Prod.fst hm
          · exact hk'
  | none =>
      have heq : installedGet ann c s k =
          (propsGet s k, c ++ [(k, mkComp ann k)]) := by
        simp [installedGet, hc, mkComp]
      rw [heq]
      have hnotmem : k ∉ c.map Prod.fst := lookup_none_not_mem hc
      refine ⟨rfl, ⟨?_, ?_⟩, ?_, fun hk => absurd hk hnotmem⟩
      · rw [List.map_append]
        rw [List.nodup_append]
        refine ⟨h.1, List.nodup_singleton k, ?_⟩
        intro a ha hb
        simp only [List.map_cons, List.map_nil, List.mem_singleton] at hb
        subst hb
        exact hnotmem ha
      · intro p hp
        rcases List.mem_append.mp hp with hp | hp
        · exact h.2 p hp
        · simp only [List.mem_singleton] at hp
          subst hp
          rfl
      · intro k'
        rw [List.map_append]
        simp only [List.mem_append, List.map_cons, List.map_nil,
          List.mem_singleton]
        exact or_comm

/-- A sequence of accessor calls on a well-formed cache: every call
returns the then-current snapshot's value at its key, well-formedness is
preserved, and the final key set is the union of the keys read and the
keys already cached. -/
theorem installedGetMany_spec (ann : AnnCfg) (reads : List (Key × Props)) :
    ∀ c : List (Key × Comp), CacheWF ann c →
      (installedGetMany ann c reads).1 =
        reads.map (fun r => propsGet r.2 r.1)
      ∧ CacheWF ann (installedGetMany ann c reads).2
      ∧ (∀ k, k ∈ (installedGetMany ann c reads).2.map Prod.fst ↔
          (k ∈ reads.map Prod.fst ∨ k ∈ c.map Prod.fst)) := by
  induction reads with
  | nil =>
      intro c hc
      exact ⟨rfl, hc, fun k => by simp [installedGetMany]⟩
  | cons r rs ih =>
      intro c hc
      obtain ⟨hv, hwf, hkeys, _⟩ := installedGet_spec ann c r.2 r.1 hc
      obtain ⟨hv', hwf', hkeys'⟩ := ih (installedGet ann c r.2 r.1).2 hwf
      refine ⟨?_, hwf', ?_⟩
      · simp only [installedGetMany, List.map_cons]
        rw [hv, hv']
      · intro k
        simp only [installedGetMany, List.map_cons, List.mem_cons]
        rw [hkeys' k, hkeys k]
        tauto

/-- C1: for any sequence of lazy reads starting from a fresh installation:
each read returns `getSnapshot()[key]` for the snapshot current at that
read; afterwards the cache holds exactly one computation per distinct key
actually read and nothing else; every cached computation evaluates the
snapshot at its own key and is memoized with that key's configured
comparator (the annotations entry for the key, defaulting to identity);
and a later call with an already-read key reuses the cache unchanged while
returning the current snapshot value. -/
theorem c1_lazy_per_key_memoized_accessor (ann : AnnCfg)
    (reads : List (Key × Props)) :
    (installedGetMany ann [] reads).1 =
      reads.map (fun r => propsGet r.2 r.1)
    ∧ ((installedGetMany ann [] reads).2.map Prod.fst).Nodup
    ∧ (∀ k, k ∈ (installedGetMany ann [] reads).2.map Prod.fst ↔
        k ∈ reads.map Prod.fst)
    ∧ (∀ p ∈ (installedGetMany ann [] reads).2, p.2 = mkComp ann p.1)
    ∧ (∀ s k, k ∈ (installedGetMany ann [] reads).2.map Prod.fst →
        installedGet ann (installedGetMany ann [] reads).2 s k =
          (propsGet s k, (installedGetMany ann [] reads).2)) := by
  have h0 : CacheWF ann [] := ⟨List.nodup_nil, by simp⟩
  obtain ⟨hv, hwf, hkeys⟩ := installedGetMany_spec ann reads [] h0
  refine ⟨hv, hwf.1, ?_, hwf.2, ?_⟩
  · intro k
    simpa using hkeys k
  · intro s k hk
    obtain ⟨h1, _, _, h4⟩ := installedGet_spec ann _ s k hwf
    have hpair : installedGet ann (installedGetMany ann [] reads).2 s k =
        ((installedGet ann (installedGetMany ann [] reads).2 s k).1,
          (installedGet ann (installedGetMany ann [] reads).2 s k).2) := rfl
    rw [hpair, h1, h4 hk]
